import Mathlib

/-!
Shallow embedding of `src/packages/perspective-jupyterlab/src/ts/psp_widget.ts`
(`PerspectiveWidget`, a Lumino widget wrapping a `<perspective-viewer>` element)
and the JSON marshaling it relies on (`JSON.stringify` / `JSON.parse`).

The DOM element is modelled by its attribute map and class list; calls made on
the viewer element are recorded in a trace.  JSON values are modelled by a
mutual inductive (strings as `List Char`, numbers as `Int`).
-/

set_option maxHeartbeats 1000000

namespace PspWidget

/-! ## Decimal printing and reading (used by `JSON.stringify` for numbers and
by the widget id `name + "-" + _increment`). -/

/-- The character for a decimal digit `d < 10`. -/
def digitChar (d : Nat) : Char := Char.ofNat (48 + d)

/-- Decimal representation of a natural number, most significant digit first,
as produced by JavaScript number-to-string conversion for integers. -/
def natDec (n : Nat) : List Char :=
  if _h : n < 10 then [digitChar n]
  else natDec (n / 10) ++ (digitChar (n % 10) :: [])
termination_by n
decreasing_by omega

/-- Numeric value of a digit character. -/
def digitVal (c : Char) : Nat := c.toNat - 48

/-- Value of a digit string, most significant digit first. -/
def decVal (cs : List Char) : Nat := cs.foldl (fun a c => a * 10 + digitVal c) 0

theorem digitVal_digitChar : ∀ d < 10, digitVal (digitChar d) = d := by decide

theorem isDigit_digitChar : ∀ d < 10, (digitChar d).isDigit = true := by decide

theorem digitChar_ne_dash : ∀ d < 10, digitChar d ≠ '-' := by decide

theorem decVal_foldl (cs : List Char) (a : Nat) :
    cs.foldl (fun a c => a * 10 + digitVal c) a =
      a * 10 ^ cs.length + decVal cs := by
  induction cs generalizing a with
  | nil => simp [decVal]
  | cons c cs ih =>
    simp only [List.foldl_cons, decVal, List.length_cons]
    rw [ih, ih (0 * 10 + digitVal c)]
    ring

theorem decVal_append (xs ys : List Char) :
    decVal (xs ++ ys) = decVal xs * 10 ^ ys.length + decVal ys := by
  simp only [decVal, List.foldl_append]
  rw [decVal_foldl]
  rfl

theorem natDec_ne_nil (n : Nat) : natDec n ≠ [] := by
  rw [natDec]
  split
  · simp
  · simp

theorem all_isDigit_natDec (n : Nat) : ∀ c ∈ natDec n, c.isDigit = true := by
  induction n using Nat.strongRecOn with
  | ind n ih =>
    unfold natDec
    split
    · next h =>
      intro c hc
      simp only [List.mem_singleton] at hc
      subst hc
      exact isDigit_digitChar n h
    · next h =>
      intro c hc
      rcases List.mem_append.mp hc with h1 | h1
      · have hlt : n / 10 < n := by omega
        exact ih _ hlt c h1
      · simp only [List.mem_singleton] at h1
        subst h1
        exact isDigit_digitChar (n % 10) (Nat.mod_lt _ (by omega))

theorem natDec_no_dash (n : Nat) : ∀ c ∈ natDec n, c ≠ '-' := by
  intro c hc
  have := all_isDigit_natDec n c hc
  intro h
  subst h
  simp [Char.isDigit] at this

theorem decVal_natDec (n : Nat) : decVal (natDec n) = n := by
  induction n using Nat.strongRecOn with
  | ind n ih =>
    unfold natDec
    split
    · next h =>
      simp [decVal, digitVal_digitChar n h]
    · next h =>
      have hlt : n / 10 < n := by omega
      rw [decVal_append, ih _ hlt]
      simp [decVal, digitVal_digitChar (n % 10) (Nat.mod_lt _ (by omega))]
      omega

theorem natDec_injective : Function.Injective natDec := by
  intro m n h
  have := decVal_natDec m
  rw [h, decVal_natDec] at this
  omega

/-! ## JSON values

JavaScript JSON values as marshaled by `JSON.stringify` / `JSON.parse` in the
widget's getters and setters.  Strings are lists of unicode scalars, numbers
are integers (the configuration payloads of this widget are strings, arrays,
objects, booleans and integer numbers; IEEE-754 fractions are out of scope of
the embedding).  Arrays and objects use mutually inductive list types so that
structural recursion over nested values stays elementary. -/

mutual
inductive J : Type where
  | null : J
  | bool (b : Bool) : J
  | num (n : Int) : J
  | str (s : List Char) : J
  | arr (xs : JList) : J
  | obj (kvs : JMembers) : J
inductive JList : Type where
  | nil : JList
  | cons (hd : J) (tl : JList) : JList
inductive JMembers : Type where
  | nil : JMembers
  | cons (k : List Char) (v : J) (tl : JMembers) : JMembers
end

deriving instance DecidableEq for J, JList, JMembers

/-- Length of a JSON array, as JavaScript `array.length`. -/
def JList.length : JList → Nat
  | .nil => 0
  | .cons _ tl => 1 + tl.length

/-- JavaScript truthiness of a JSON value (`if (v)`): `null`, `false`, `0` and
the empty string are falsy; every array and object is truthy. -/
def truthy : J → Bool
  | .null => false
  | .bool b => b
  | .num n => n != 0
  | .str s => !s.isEmpty
  | .arr _ => true
  | .obj _ => true

/-- Opening brace character. -/
def lbrace : Char := Char.ofNat 123

/-- Closing brace character. -/
def rbrace : Char := Char.ofNat 125

/-- Lowercase hexadecimal digit character for `d < 16`. -/
def hexDigitChar (d : Nat) : Char :=
  Char.ofNat (if d < 10 then 48 + d else 87 + d)

/-- Value of a hexadecimal digit character, accepting both cases. -/
def hexVal (c : Char) : Option Nat :=
  let t := c.toNat
  if 48 ≤ t ∧ t ≤ 57 then some (t - 48)
  else if 97 ≤ t ∧ t ≤ 102 then some (t - 87)
  else if 65 ≤ t ∧ t ≤ 70 then some (t - 55)
  else none

/-- JavaScript `JSON.stringify` escaping of one string character: `"` and `\` are
backslash-escaped, the control characters `\b \t \n \f \r` get their short
escapes, every other control character becomes `\u00xx`, and all other
characters stand for themselves. -/
def uEscape (t : Nat) : List Char :=
  '\\' :: 'u' :: '0' :: '0' :: hexDigitChar (t / 16) :: [hexDigitChar (t % 16)]

def escChar (c : Char) : List Char :=
  if c = '"' then ['\\', '"']
  else if c = '\\' then ['\\', '\\']
  else if c = '\x08' then ['\\', 'b']
  else if c = '\t' then ['\\', 't']
  else if c = '\n' then ['\\', 'n']
  else if c = '\x0c' then ['\\', 'f']
  else if c = '\r' then ['\\', 'r']
  else if c.toNat < 0x20 then uEscape c.toNat
  else [c]

/-- JavaScript `JSON.stringify` escaping of a whole string body. -/
def escStr : List Char → List Char
  | [] => []
  | c :: cs => escChar c ++ escStr cs

/-- A JSON string literal: quoted, escaped body. -/
def jStr (s : List Char) : List Char := '"' :: (escStr s ++ ['"'])

/-- Decimal representation of an integer, as JavaScript prints integers. -/
def intDec (i : Int) : List Char :=
  if i < 0 then '-' :: natDec i.natAbs else natDec i.toNat

mutual
/-- JavaScript `JSON.stringify` of a value (compact form, no whitespace). -/
def stringifyVal : J → List Char
  | .null => 'n' :: "ull".toList
  | .bool true => 't' :: "rue".toList
  | .bool false => 'f' :: "alse".toList
  | .num i => intDec i
  | .str s => jStr s
  | .arr .nil => ['[', ']']
  | .arr (.cons x tl) => '[' :: (stringifyVal x ++ stringifyItems tl ++ [']'])
  | .obj .nil => [lbrace, rbrace]
  | .obj (.cons k v tl) =>
      lbrace :: (jStr k ++ ':' :: stringifyVal v ++ stringifyMembers tl ++ [rbrace])
/-- Trailing array items, each preceded by a comma. -/
def stringifyItems : JList → List Char
  | .nil => []
  | .cons x tl => ',' :: (stringifyVal x ++ stringifyItems tl)
/-- Trailing object members, each preceded by a comma. -/
def stringifyMembers : JMembers → List Char
  | .nil => []
  | .cons k v tl => ',' :: (jStr k ++ ':' :: stringifyVal v ++ stringifyMembers tl)
end

/-! ## JSON parsing

A recursive-descent reader for the compact output of `stringifyVal`; the
recursion over nesting is fed by a fuel parameter.  It accepts exactly the
whitespace-free forms the stringifier emits (integer numbers, both
hexadecimal cases in `\u` escapes), which is the fragment of `JSON.parse`
the widget's getters exercise. -/

/-- Decode a single-character escape after a backslash. -/
def escDecode (e : Char) : Option Char :=
  if e = '"' then some '"'
  else if e = '\\' then some '\\'
  else if e = '/' then some '/'
  else if e = 'b' then some '\x08'
  else if e = 't' then some '\t'
  else if e = 'n' then some '\n'
  else if e = 'f' then some '\x0c'
  else if e = 'r' then some '\r'
  else none

/-- Read a string body up to the closing quote, decoding escapes; raw control
characters are rejected as in `JSON.parse`. -/
def parseStringBody : List Char → Option (List Char × List Char)
  | [] => none
  | c :: r =>
    if c = '"' then some ([], r)
    else if c = '\\' then
      match r with
      | [] => none
      | e :: r' =>
        if e = 'u' then
          match r' with
          | h1 :: h2 :: h3 :: h4 :: r2 =>
            match hexVal h1, hexVal h2, hexVal h3, hexVal h4 with
            | some v1, some v2, some v3, some v4 =>
              let n := ((v1 * 16 + v2) * 16 + v3) * 16 + v4
              if n.isValidChar then
                match parseStringBody r2 with
                | some (s, rest) => some (Char.ofNat n :: s, rest)
                | none => none
              else none
            | _, _, _, _ => none
          | _ => none
        else
          match escDecode e with
          | some d =>
            match parseStringBody r' with
            | some (s, rest) => some (d :: s, rest)
            | none => none
          | none => none
    else if c.toNat < 0x20 then none
    else
      match parseStringBody r with
      | some (s, rest) => some (c :: s, rest)
      | none => none
termination_by s => s.length
decreasing_by all_goals simp_wf <;> omega

/-- Read a nonempty run of decimal digits and its value. -/
def scanNat (s : List Char) : Option (Nat × List Char) :=
  let ds := s.takeWhile Char.isDigit
  if ds.isEmpty then none else some (decVal ds, s.dropWhile Char.isDigit)

/-- Recognise the tail `ull` of the literal `null`. -/
def litNull (s : List Char) : Option (J × List Char) :=
  if s.take 3 = "ull".toList then some (.null, s.drop 3) else none

/-- Recognise the tail `rue` of the literal `true`. -/
def litTrue (s : List Char) : Option (J × List Char) :=
  if s.take 3 = "rue".toList then some (.bool true, s.drop 3) else none

/-- Recognise the tail `alse` of the literal `false`. -/
def litFalse (s : List Char) : Option (J × List Char) :=
  if s.take 4 = "alse".toList then some (.bool false, s.drop 4) else none

mutual
/-- Read one JSON value. -/
def parseVal : Nat → List Char → Option (J × List Char)
  | 0, _ => none
  | fuel + 1, s =>
    match s with
    | [] => none
    | c :: r =>
      if c = 'n' then litNull r
      else if c = 't' then litTrue r
      else if c = 'f' then litFalse r
      else if c = '"' then (parseStringBody r).map fun p => (J.str p.1, p.2)
      else if c = '[' then
        if r.head? = some ']' then some (.arr .nil, r.tail)
        else (parseItems fuel r).map fun p => (J.arr p.1, p.2)
      else if c = lbrace then
        if r.head? = some rbrace then some (.obj .nil, r.tail)
        else (parseMembers fuel r).map fun p => (J.obj p.1, p.2)
      else if c = '-' then (scanNat r).map fun p => (J.num (-(p.1 : Int)), p.2)
      else if c.isDigit then (scanNat (c :: r)).map fun p => (J.num (p.1 : Int), p.2)
      else none
/-- Read the items of a nonempty array after its `[`, consuming the `]`. -/
def parseItems : Nat → List Char → Option (JList × List Char)
  | 0, _ => none
  | fuel + 1, s =>
    match parseVal fuel s with
    | some (v, r) =>
      if r.head? = some ',' then
        (parseItems fuel r.tail).map fun p => (JList.cons v p.1, p.2)
      else if r.head? = some ']' then some (.cons v .nil, r.tail)
      else none
    | none => none
/-- Read the members of a nonempty object after its opening brace, consuming
the closing brace. -/
def parseMembers : Nat → List Char → Option (JMembers × List Char)
  | 0, _ => none
  | fuel + 1, s =>
    match s with
    | c :: r =>
      if c = '"' then
        match parseStringBody r with
        | some (k, r1) =>
          if r1.head? = some ':' then
            match parseVal fuel r1.tail with
            | some (v, r3) =>
              if r3.head? = some ',' then
                (parseMembers fuel r3.tail).map fun p => (JMembers.cons k v p.1, p.2)
              else if r3.head? = some rbrace then some (.cons k v .nil, r3.tail)
              else none
            | none => none
          else none
        | none => none
      else none
    | [] => none
end

/-- JavaScript `JSON.parse` of a whole string: one value consuming the entire input. -/
def jparse (s : List Char) : Option J :=
  match parseVal (s.length + 1) s with
  | some (v, []) => some v
  | _ => none

mutual
/-- Fuel sufficient for `parseVal` on the output of `stringifyVal`. -/
def jfuel : J → Nat
  | .arr xs => 1 + jfuelItems xs
  | .obj kvs => 1 + jfuelMembers kvs
  | _ => 1
/-- Fuel sufficient for `parseItems`. -/
def jfuelItems : JList → Nat
  | .nil => 0
  | .cons x tl => 1 + jfuel x + jfuelItems tl
/-- Fuel sufficient for `parseMembers`. -/
def jfuelMembers : JMembers → Nat
  | .nil => 0
  | .cons _ v tl => 1 + jfuel v + jfuelMembers tl
end

/-- The first character of the leftover input is not a digit (so a number
read never overruns into it). -/
def noDigitHead (r : List Char) : Bool :=
  match r.head? with
  | none => true
  | some c => !c.isDigit

/-! ## The stringify / parse round trip -/

theorem hexVal_hexDigitChar : ∀ d < 16, hexVal (hexDigitChar d) = some d := by decide

theorem psb_round (s rest : List Char) :
    parseStringBody (escStr s ++ '"' :: rest) = some (s, rest) := by
  induction s with
  | nil =>
    show parseStringBody ('"' :: rest) = _
    rw [parseStringBody.eq_def]
    simp
  | cons c cs ih =>
    show parseStringBody ((escChar c ++ escStr cs) ++ '"' :: rest) = _
    rw [List.append_assoc]
    by_cases hcq : c = '"'
    · subst hcq
      have e : escChar '"' = ['\\', '"'] := rfl
      rw [e]
      show parseStringBody ('\\' :: '"' :: (escStr cs ++ '"' :: rest)) = _
      rw [parseStringBody.eq_def]
      simp [escDecode, ih]
    · by_cases hcb : c = '\\'
      · subst hcb
        have e : escChar '\\' = ['\\', '\\'] := rfl
        rw [e]
        show parseStringBody ('\\' :: '\\' :: (escStr cs ++ '"' :: rest)) = _
        rw [parseStringBody.eq_def]
        simp [escDecode, ih]
      · by_cases hc8 : c = '\x08'
        · subst hc8
          have e : escChar '\x08' = ['\\', 'b'] := rfl
          rw [e]
          show parseStringBody ('\\' :: 'b' :: (escStr cs ++ '"' :: rest)) = _
          rw [parseStringBody.eq_def]
          simp [escDecode, ih]
        · by_cases hct : c = '\t'
          · subst hct
            have e : escChar '\t' = ['\\', 't'] := rfl
            rw [e]
            show parseStringBody ('\\' :: 't' :: (escStr cs ++ '"' :: rest)) = _
            rw [parseStringBody.eq_def]
            simp [escDecode, ih]
          · by_cases hcn : c = '\n'
            · subst hcn
              have e : escChar '\n' = ['\\', 'n'] := rfl
              rw [e]
              show parseStringBody ('\\' :: 'n' :: (escStr cs ++ '"' :: rest)) = _
              rw [parseStringBody.eq_def]
              simp [escDecode, ih]
            · by_cases hcf : c = '\x0c'
              · subst hcf
                have e : escChar '\x0c' = ['\\', 'f'] := rfl
                rw [e]
                show parseStringBody ('\\' :: 'f' :: (escStr cs ++ '"' :: rest)) = _
                rw [parseStringBody.eq_def]
                simp [escDecode, ih]
              · by_cases hcr : c = '\r'
                · subst hcr
                  have e : escChar '\r' = ['\\', 'r'] := rfl
                  rw [e]
                  show parseStringBody ('\\' :: 'r' :: (escStr cs ++ '"' :: rest)) = _
                  rw [parseStringBody.eq_def]
                  simp [escDecode, ih]
                · by_cases hcc : c.toNat < 0x20
                  · have e : escChar c = uEscape c.toNat := by
                      simp [escChar, hcq, hcb, hc8, hct, hcn, hcf, hcr, hcc]
                    rw [e]
                    simp only [uEscape, List.cons_append, List.singleton_append]
                    rw [parseStringBody.eq_def]
                    have hv0 : hexVal '0' = some 0 := rfl
                    have hhi : hexVal (hexDigitChar (c.toNat / 16)) = some (c.toNat / 16) :=
                      hexVal_hexDigitChar _ (by omega)
                    have hlo : hexVal (hexDigitChar (c.toNat % 16)) = some (c.toNat % 16) :=
                      hexVal_hexDigitChar _ (by omega)
                    have hn : ((0 * 16 + 0) * 16 + c.toNat / 16) * 16 + c.toNat % 16 = c.toNat := by
                      omega
                    have hvalid : Nat.isValidChar c.toNat := Or.inl (by omega)
                    simp only [hv0, hhi, hlo]
                    have hn2 : c.toNat / 16 * 16 + c.toNat % 16 = c.toNat := by omega
                    simp [hn2, hvalid, Char.ofNat_toNat, ih]
                  · have e : escChar c = [c] := by
                      simp [escChar, hcq, hcb, hc8, hct, hcn, hcf, hcr, hcc]
                    rw [e]
                    show parseStringBody (c :: (escStr cs ++ '"' :: rest)) = _
                    rw [parseStringBody.eq_def]
                    simp [hcq, hcb, hcc, ih]


theorem takeWhile_append_all {p : Char → Bool} (xs ys : List Char)
    (h : ∀ x ∈ xs, p x = true) :
    (xs ++ ys).takeWhile p = xs ++ ys.takeWhile p := by
  induction xs with
  | nil => rfl
  | cons y ys' ih =>
    simp only [List.cons_append, List.takeWhile_cons]
    rw [h y (by simp), ih (fun a ha => h a (by simp [ha]))]
    simp

theorem dropWhile_append_all {p : Char → Bool} (xs ys : List Char)
    (h : ∀ x ∈ xs, p x = true) :
    (xs ++ ys).dropWhile p = ys.dropWhile p := by
  induction xs with
  | nil => rfl
  | cons y ys' ih =>
    simp only [List.cons_append, List.dropWhile_cons]
    rw [h y (by simp), ih (fun a ha => h a (by simp [ha]))]
    exact if_pos rfl

theorem takeWhile_noDigitHead (rest : List Char) (h : noDigitHead rest = true) :
    rest.takeWhile Char.isDigit = [] := by
  cases rest with
  | nil => simp
  | cons c r =>
    simp only [noDigitHead, List.head?, Bool.not_eq_true'] at h
    simp [List.takeWhile_cons, h]

theorem dropWhile_noDigitHead (rest : List Char) (h : noDigitHead rest = true) :
    rest.dropWhile Char.isDigit = rest := by
  cases rest with
  | nil => simp
  | cons c r =>
    simp only [noDigitHead, List.head?, Bool.not_eq_true'] at h
    simp [List.dropWhile_cons, h]

theorem scanNat_natDec (n : Nat) (rest : List Char) (hr : noDigitHead rest = true) :
    scanNat (natDec n ++ rest) = some (n, rest) := by
  have ht : (natDec n ++ rest).takeWhile Char.isDigit = natDec n := by
    rw [takeWhile_append_all _ _ (all_isDigit_natDec n), takeWhile_noDigitHead rest hr,
      List.append_nil]
  have hd : (natDec n ++ rest).dropWhile Char.isDigit = rest := by
    rw [dropWhile_append_all _ _ (all_isDigit_natDec n), dropWhile_noDigitHead rest hr]
  simp [scanNat, ht, hd, natDec_ne_nil n, decVal_natDec]

theorem head_ok (c : Char) (cs : List Char) (h1 : c ≠ ']') (h2 : c ≠ rbrace) :
    ∃ c0 cs0, c :: cs = c0 :: cs0 ∧ c0 ≠ ']' ∧ c0 ≠ rbrace := ⟨c, cs, rfl, h1, h2⟩

theorem stringifyVal_head (v : J) :
    ∃ c cs, stringifyVal v = c :: cs ∧ c ≠ ']' ∧ c ≠ rbrace := by
  cases v with
  | null => exact head_ok 'n' "ull".toList (by decide) (by decide)
  | bool b =>
    cases b with
    | true => exact head_ok 't' "rue".toList (by decide) (by decide)
    | false => exact head_ok 'f' "alse".toList (by decide) (by decide)
  | num i =>
    show ∃ c cs, intDec i = c :: cs ∧ _
    rw [intDec]
    split
    · exact head_ok '-' (natDec i.natAbs) (by decide) (by decide)
    · cases h : natDec i.toNat with
      | nil => exact absurd h (natDec_ne_nil _)
      | cons c cs =>
        have hc : c.isDigit = true := all_isDigit_natDec i.toNat c (by rw [h]; simp)
        refine head_ok c cs ?_ ?_
        · intro he; rw [he] at hc; simp [Char.isDigit] at hc
        · intro he; rw [he] at hc; simp [Char.isDigit, rbrace] at hc
  | str s => exact head_ok '"' (escStr s ++ ['"']) (by decide) (by decide)
  | arr xs =>
    cases xs with
    | nil => exact head_ok '[' [']'] (by decide) (by decide)
    | cons x tl =>
      exact head_ok '[' (stringifyVal x ++ stringifyItems tl ++ [']'])
        (by decide) (by decide)
  | obj kvs =>
    cases kvs with
    | nil => exact head_ok lbrace [rbrace] (by decide) (by decide)
    | cons k v tl =>
      exact head_ok lbrace
        (jStr k ++ ':' :: stringifyVal v ++ stringifyMembers tl ++ [rbrace])
        (by decide) (by decide)

theorem noDigitHead_stringifyItems (tl : JList) (rest : List Char) :
    noDigitHead (stringifyItems tl ++ ']' :: rest) = true := by
  cases tl <;> simp [stringifyItems, noDigitHead]

theorem noDigitHead_stringifyMembers (tl : JMembers) (rest : List Char) :
    noDigitHead (stringifyMembers tl ++ rbrace :: rest) = true := by
  cases tl <;> simp [stringifyMembers, noDigitHead, rbrace]

mutual
theorem parseVal_round : ∀ (v : J) (f : Nat) (rest : List Char),
    jfuel v ≤ f → noDigitHead rest = true →
    parseVal f (stringifyVal v ++ rest) = some (v, rest)
  | .null, f, rest, hf, _hr => by
    have h1 : 1 ≤ f := by simpa [jfuel] using hf
    obtain ⟨f', rfl⟩ : ∃ f', f = f' + 1 := ⟨f - 1, by omega⟩
    simp only [stringifyVal, List.cons_append]
    rw [parseVal]
    have ht : ("ull".toList ++ rest).take 3 = "ull".toList := List.take_left' rfl
    have hd : ("ull".toList ++ rest).drop 3 = rest := List.drop_left' rfl
    show (if 'n' = 'n' then litNull ("ull".toList ++ rest) else _) = _
    simp [litNull, ht, hd]
  | .bool b, f, rest, hf, _hr => by
    have h1 : 1 ≤ f := by cases b <;> simpa [jfuel] using hf
    obtain ⟨f', rfl⟩ : ∃ f', f = f' + 1 := ⟨f - 1, by omega⟩
    cases b with
    | true =>
      simp only [stringifyVal, List.cons_append]
      rw [parseVal]
      have ht : ("rue".toList ++ rest).take 3 = "rue".toList := List.take_left' rfl
      have hd : ("rue".toList ++ rest).drop 3 = rest := List.drop_left' rfl
      show (if 't' = 'n' then _ else if 't' = 't' then
        litTrue ("rue".toList ++ rest) else _) = _
      simp [litTrue, ht, hd]
    | false =>
      simp only [stringifyVal, List.cons_append]
      rw [parseVal]
      have ht : ("alse".toList ++ rest).take 4 = "alse".toList := List.take_left' rfl
      have hd : ("alse".toList ++ rest).drop 4 = rest := List.drop_left' rfl
      show (if 'f' = 'n' then _ else if 'f' = 't' then _ else if 'f' = 'f' then
        litFalse ("alse".toList ++ rest) else _) = _
      simp [litFalse, ht, hd]
  | .num i, f, rest, hf, hr => by
    have h1 : 1 ≤ f := by simpa [jfuel] using hf
    obtain ⟨f', rfl⟩ : ∃ f', f = f' + 1 := ⟨f - 1, by omega⟩
    simp only [stringifyVal]
    by_cases hneg : i < 0
    · have he : intDec i = '-' :: natDec i.natAbs := by rw [intDec, if_pos hneg]
      rw [he]
      simp only [List.cons_append]
      rw [parseVal]
      have hs := scanNat_natDec i.natAbs rest hr
      have hi : -((i.natAbs : Nat) : Int) = i := by omega
      have hlb2 : ('-' : Char) ≠ lbrace := by decide
      simp [hs, hlb2]
      rw [abs_of_nonpos (by omega : i ≤ 0)]
      omega
    · have he : intDec i = natDec i.toNat := by rw [intDec, if_neg hneg]
      rw [he]
      cases h : natDec i.toNat with
      | nil => exact absurd h (natDec_ne_nil _)
      | cons c cs =>
        have hc : c.isDigit = true := all_isDigit_natDec i.toNat c (by rw [h]; simp)
        have hn : c ≠ 'n' := by intro hx; rw [hx] at hc; exact absurd hc (by decide)
        have ht : c ≠ 't' := by intro hx; rw [hx] at hc; exact absurd hc (by decide)
        have hfa : c ≠ 'f' := by intro hx; rw [hx] at hc; exact absurd hc (by decide)
        have hq : c ≠ '"' := by intro hx; rw [hx] at hc; exact absurd hc (by decide)
        have hsq : c ≠ '[' := by intro hx; rw [hx] at hc; exact absurd hc (by decide)
        have hlb : c ≠ lbrace := by intro hx; rw [hx] at hc; exact absurd hc (by decide)
        have hda : c ≠ '-' := by intro hx; rw [hx] at hc; exact absurd hc (by decide)
        have hs := scanNat_natDec i.toNat rest hr
        rw [h] at hs
        simp only [List.cons_append]
        rw [parseVal]
        have hi : ((i.toNat : Nat) : Int) = i := by omega
        simp only [List.cons_append] at hs
        simp [hn, ht, hfa, hq, hsq, hlb, hda, hc, hs, hi]
  | .str s, f, rest, hf, _hr => by
    have h1 : 1 ≤ f := by simpa [jfuel] using hf
    obtain ⟨f', rfl⟩ : ∃ f', f = f' + 1 := ⟨f - 1, by omega⟩
    simp only [stringifyVal, jStr, List.cons_append, List.append_assoc,
      List.singleton_append]
    rw [parseVal]
    simp [psb_round s rest]
  | .arr .nil, f, rest, hf, _hr => by
    have h1 : 1 ≤ f := by simpa [jfuel, jfuelItems] using hf
    obtain ⟨f', rfl⟩ : ∃ f', f = f' + 1 := ⟨f - 1, by omega⟩
    simp only [stringifyVal, List.cons_append, List.nil_append]
    rw [parseVal]
    simp
  | .arr (.cons x tl), f, rest, hf, hr => by
    have h1 : 1 ≤ f := by
      have : 1 ≤ jfuel (J.arr (.cons x tl)) := by simp [jfuel]
      omega
    obtain ⟨f', rfl⟩ : ∃ f', f = f' + 1 := ⟨f - 1, by omega⟩
    have hfi : jfuelItems (.cons x tl) ≤ f' := by
      have : jfuel (J.arr (.cons x tl)) = 1 + jfuelItems (.cons x tl) := by rw [jfuel]
      omega
    obtain ⟨c0, cs0, hsv, hne, _⟩ := stringifyVal_head x
    have hinput : stringifyVal (J.arr (.cons x tl)) ++ rest =
        '[' :: (c0 :: (cs0 ++ (stringifyItems tl ++ ']' :: rest))) := by
      show ('[' :: (stringifyVal x ++ stringifyItems tl ++ [']'])) ++ rest = _
      rw [hsv]
      simp [List.append_assoc]
    rw [hinput]
    rw [parseVal]
    have hitems := parseItems_round x tl f' rest hfi hr
    rw [hsv] at hitems
    simp only [List.cons_append, List.append_assoc] at hitems
    simp [hne, hitems]
  | .obj .nil, f, rest, hf, _hr => by
    have h1 : 1 ≤ f := by simpa [jfuel, jfuelMembers] using hf
    obtain ⟨f', rfl⟩ : ∃ f', f = f' + 1 := ⟨f - 1, by omega⟩
    simp only [stringifyVal, List.cons_append, List.nil_append]
    rw [parseVal]
    simp [lbrace, rbrace]
  | .obj (.cons k v tl), f, rest, hf, hr => by
    have h1 : 1 ≤ f := by
      have : 1 ≤ jfuel (J.obj (.cons k v tl)) := by simp [jfuel]
      omega
    obtain ⟨f', rfl⟩ : ∃ f', f = f' + 1 := ⟨f - 1, by omega⟩
    have hfm : jfuelMembers (.cons k v tl) ≤ f' := by
      have : jfuel (J.obj (.cons k v tl)) = 1 + jfuelMembers (.cons k v tl) := by rw [jfuel]
      omega
    have hinput : stringifyVal (J.obj (.cons k v tl)) ++ rest =
        lbrace :: ('"' :: (escStr k ++ ['"'] ++ ':' :: stringifyVal v ++
          stringifyMembers tl ++ rbrace :: rest)) := by
      show (lbrace :: (jStr k ++ ':' :: stringifyVal v ++ stringifyMembers tl ++
        [rbrace])) ++ rest = _
      simp [jStr, List.append_assoc]
    rw [hinput]
    rw [parseVal]
    have hmem := parseMembers_round k v tl f' rest hfm hr
    simp only [jStr, List.cons_append, List.append_assoc, List.nil_append] at hmem
    have hb1 : lbrace ≠ 'n' := by decide
    have hb2 : lbrace ≠ 't' := by decide
    have hb3 : lbrace ≠ 'f' := by decide
    have hb4 : lbrace ≠ '"' := by decide
    have hb5 : lbrace ≠ '[' := by decide
    have hbq : ('"' : Char) ≠ rbrace := by decide
    simp [hb1, hb2, hb3, hb4, hb5, hbq, hmem]
termination_by v _ _ _ _ => sizeOf v
decreasing_by
  all_goals simp_wf
  all_goals omega
theorem parseItems_round : ∀ (x : J) (tl : JList) (f : Nat) (rest : List Char),
    jfuelItems (.cons x tl) ≤ f → noDigitHead rest = true →
    parseItems f (stringifyVal x ++ stringifyItems tl ++ ']' :: rest) =
      some (.cons x tl, rest)
  | x, .nil, f, rest, hf, hr => by
    have h1 : 1 ≤ f := by
      have : jfuelItems (.cons x .nil) = 1 + jfuel x + jfuelItems .nil := by simp [jfuelItems]
      omega
    obtain ⟨f', rfl⟩ : ∃ f', f = f' + 1 := ⟨f - 1, by omega⟩
    have hfx : jfuel x ≤ f' := by
      have : jfuelItems (.cons x .nil) = 1 + jfuel x + jfuelItems .nil := by simp [jfuelItems]
      omega
    rw [parseItems]
    have hv := parseVal_round x f' (stringifyItems .nil ++ ']' :: rest) hfx
      (noDigitHead_stringifyItems .nil rest)
    rw [← List.append_assoc] at hv
    rw [hv]
    simp [stringifyItems]
  | x, .cons y tl', f, rest, hf, hr => by
    have h1 : 1 ≤ f := by
      have : jfuelItems (.cons x (.cons y tl')) =
          1 + jfuel x + jfuelItems (.cons y tl') := by rw [jfuelItems]
      omega
    obtain ⟨f', rfl⟩ : ∃ f', f = f' + 1 := ⟨f - 1, by omega⟩
    have hfx : jfuel x ≤ f' := by
      have : jfuelItems (.cons x (.cons y tl')) =
          1 + jfuel x + jfuelItems (.cons y tl') := by rw [jfuelItems]
      omega
    rw [parseItems]
    have hv := parseVal_round x f' (stringifyItems (.cons y tl') ++ ']' :: rest) hfx
      (noDigitHead_stringifyItems (.cons y tl') rest)
    rw [← List.append_assoc] at hv
    rw [hv]
    have hft : jfuelItems (.cons y tl') ≤ f' := by
      have h2 : jfuelItems (.cons x (.cons y tl')) =
          1 + jfuel x + jfuelItems (.cons y tl') := by rw [jfuelItems]
      omega
    have hi := parseItems_round y tl' f' rest hft hr
    simp only [stringifyItems, List.cons_append, List.append_assoc] at hi ⊢
    simp [hi]
termination_by x tl _ _ _ _ => sizeOf x + sizeOf tl
decreasing_by
  all_goals simp_wf
  all_goals omega
theorem parseMembers_round : ∀ (k : List Char) (v : J) (tl : JMembers) (f : Nat)
      (rest : List Char),
    jfuelMembers (.cons k v tl) ≤ f → noDigitHead rest = true →
    parseMembers f
        (jStr k ++ ':' :: stringifyVal v ++ stringifyMembers tl ++ rbrace :: rest) =
      some (.cons k v tl, rest)
  | k, v, .nil, f, rest, hf, hr => by
    have h1 : 1 ≤ f := by
      have : jfuelMembers (.cons k v .nil) = 1 + jfuel v + jfuelMembers .nil := by
        simp [jfuelMembers]
      omega
    obtain ⟨f', rfl⟩ : ∃ f', f = f' + 1 := ⟨f - 1, by omega⟩
    have hfv : jfuel v ≤ f' := by
      have : jfuelMembers (.cons k v .nil) = 1 + jfuel v + jfuelMembers .nil := by
        simp [jfuelMembers]
      omega
    have hinput : jStr k ++ ':' :: stringifyVal v ++ stringifyMembers .nil ++
        rbrace :: rest =
        '"' :: (escStr k ++ '"' :: (':' :: (stringifyVal v ++
          (stringifyMembers .nil ++ rbrace :: rest)))) := by
      simp [jStr, List.append_assoc]
    rw [hinput]
    rw [parseMembers]
    have hk := psb_round k (':' :: (stringifyVal v ++ (stringifyMembers .nil ++
      rbrace :: rest)))
    have hv := parseVal_round v f' (stringifyMembers .nil ++ rbrace :: rest) hfv
      (noDigitHead_stringifyMembers .nil rest)
    simp only [stringifyMembers, List.nil_append] at hk hv ⊢
    have hbc : rbrace ≠ ',' := by decide
    simp [hk, hv, hbc]
  | k, v, .cons k2 v2 tl', f, rest, hf, hr => by
    have h1 : 1 ≤ f := by
      have : jfuelMembers (.cons k v (.cons k2 v2 tl')) =
          1 + jfuel v + jfuelMembers (.cons k2 v2 tl') := by rw [jfuelMembers]
      omega
    obtain ⟨f', rfl⟩ : ∃ f', f = f' + 1 := ⟨f - 1, by omega⟩
    have hfv : jfuel v ≤ f' := by
      have : jfuelMembers (.cons k v (.cons k2 v2 tl')) =
          1 + jfuel v + jfuelMembers (.cons k2 v2 tl') := by rw [jfuelMembers]
      omega
    have hinput : jStr k ++ ':' :: stringifyVal v ++
        stringifyMembers (.cons k2 v2 tl') ++ rbrace :: rest =
        '"' :: (escStr k ++ '"' :: (':' :: (stringifyVal v ++
          (stringifyMembers (.cons k2 v2 tl') ++ rbrace :: rest)))) := by
      simp [jStr, List.append_assoc]
    rw [hinput]
    rw [parseMembers]
    have hk := psb_round k (':' :: (stringifyVal v ++
      (stringifyMembers (.cons k2 v2 tl') ++ rbrace :: rest)))
    have hv := parseVal_round v f' (stringifyMembers (.cons k2 v2 tl') ++
      rbrace :: rest) hfv (noDigitHead_stringifyMembers (.cons k2 v2 tl') rest)
    have hft : jfuelMembers (.cons k2 v2 tl') ≤ f' := by
      have h2 : jfuelMembers (.cons k v (.cons k2 v2 tl')) =
          1 + jfuel v + jfuelMembers (.cons k2 v2 tl') := by rw [jfuelMembers]
      omega
    have hm := parseMembers_round k2 v2 tl' f' rest hft hr
    simp only [stringifyMembers, List.cons_append, List.append_assoc,
      List.nil_append] at hk hm hv ⊢
    simp [hk, hv, hm]
termination_by _ v tl _ _ _ _ => sizeOf v + sizeOf tl
decreasing_by
  all_goals simp_wf
  all_goals omega
end


mutual
theorem jfuel_le_length : ∀ v : J, jfuel v ≤ (stringifyVal v).length
  | .null => by simp [jfuel, stringifyVal]
  | .bool b => by cases b <;> simp [jfuel, stringifyVal]
  | .num i => by
    have h : stringifyVal (J.num i) = intDec i := rfl
    rw [h, intDec]
    split
    · simp [jfuel]
    · have := natDec_ne_nil i.toNat
      have hlen : 0 < (natDec i.toNat).length := List.length_pos.mpr this
      simp [jfuel]
      omega
  | .str s => by simp [jfuel, stringifyVal, jStr]
  | .arr .nil => by simp [jfuel, jfuelItems, stringifyVal]
  | .arr (.cons x tl) => by
    have hx := jfuel_le_length x
    have ht := jfuelItems_le_length tl
    have e : jfuel (J.arr (.cons x tl)) = 1 + (1 + jfuel x + jfuelItems tl) := by
      simp [jfuel, jfuelItems]
    rw [e]
    simp [stringifyVal]
    omega
  | .obj .nil => by simp [jfuel, jfuelMembers, stringifyVal]
  | .obj (.cons k v tl) => by
    have hv := jfuel_le_length v
    have ht := jfuelMembers_le_length tl
    have e : jfuel (J.obj (.cons k v tl)) = 1 + (1 + jfuel v + jfuelMembers tl) := by
      simp [jfuel, jfuelMembers]
    rw [e]
    simp [stringifyVal]
    omega
theorem jfuelItems_le_length : ∀ xs : JList, jfuelItems xs ≤ (stringifyItems xs).length
  | .nil => by simp [jfuelItems, stringifyItems]
  | .cons x tl => by
    have hx := jfuel_le_length x
    have ht := jfuelItems_le_length tl
    have e : jfuelItems (.cons x tl) = 1 + jfuel x + jfuelItems tl := by
      simp [jfuelItems]
    rw [e]
    simp [stringifyItems]
    omega
theorem jfuelMembers_le_length :
    ∀ kvs : JMembers, jfuelMembers kvs ≤ (stringifyMembers kvs).length
  | .nil => by simp [jfuelMembers, stringifyMembers]
  | .cons k v tl => by
    have hv := jfuel_le_length v
    have ht := jfuelMembers_le_length tl
    have e : jfuelMembers (.cons k v tl) = 1 + jfuel v + jfuelMembers tl := by
      simp [jfuelMembers]
    rw [e]
    simp [stringifyMembers]
    omega
end

/-- JavaScript `JSON.parse` inverts `JSON.stringify`: the marshaling round trip is the
identity on JSON values. -/
theorem jparse_stringify (v : J) : jparse (stringifyVal v) = some v := by
  have h := parseVal_round v ((stringifyVal v).length + 1) []
    (le_trans (jfuel_le_length v) (by omega)) rfl
  simp only [List.append_nil] at h
  rw [jparse, h]


/-! ## The widget model

State of a `PerspectiveWidget` (file `psp_widget.ts`).  The viewer element is
modelled by its attribute map; the widget's node by its class list; calls the
widget makes on the viewer element (or on `viewer.table`) are recorded in
order in a trace.  The Lumino base-class behaviour (`super.onResize` etc.)
touches neither the viewer nor the element and is modelled as the identity. -/

/-- Modelled from the spec: the constants imported from `./utils`
(`MIME_TYPE`, `PSP_CLASS`, `PSP_CONTAINER_CLASS`, `PSP_CONTAINER_CLASS_DARK`),
whose source file is not among the embedded sources.  The widget logic relies
only on them being fixed, pairwise distinct strings. -/
def PSP_CONTAINER_CLASS : String := "PSPContainer"

/-- Modelled from the spec: the dark-mode container class from `./utils`. -/
def PSP_CONTAINER_CLASS_DARK : String := "PSPContainer-dark"

/-- Modelled from the spec: the viewer class from `./utils`. -/
def PSP_CLASS : String := "PSPViewer"

/-- Modelled from the spec: the MIME type constant from `./utils`. -/
def MIME_TYPE : String := "application/psp+json"

/-- DOM element attributes: an association map from attribute name to string
value. -/
abbrev Attrs := List (String × List Char)

/-- DOM `element.removeAttribute(k)`. -/
def removeAttr : Attrs → String → Attrs
  | [], _ => []
  | p :: l, k => if p.1 = k then removeAttr l k else p :: removeAttr l k

/-- DOM `element.setAttribute(k, v)`. -/
def setAttr (a : Attrs) (k : String) (v : List Char) : Attrs :=
  (k, v) :: removeAttr a k

/-- DOM `element.getAttribute(k)`: `none` models the JavaScript `null` of a
missing attribute. -/
def getAttr : Attrs → String → Option (List Char)
  | [], _ => none
  | p :: l, k => if p.1 = k then some p.2 else getAttr l k

/-- DOM `element.hasAttribute(k)`. -/
def hasAttr (a : Attrs) (k : String) : Bool := (getAttr a k).isSome

/-- DOM `classList.add c`: a DOMTokenList ignores an already-present token. -/
def classAdd (l : List String) (c : String) : List String :=
  if c ∈ l then l else l ++ [c]

/-- DOM `classList.remove c`. -/
def classRemove : List String → String → List String
  | [], _ => []
  | x :: l, c => if x = c then classRemove l c else x :: classRemove l c

/-- Membership test on a class list (`classList.contains`). -/
def classHas (l : List String) (c : String) : Bool := decide (c ∈ l)

/-- One call made on the viewer element (or its `table`), as recorded in the
widget's trace. -/
inductive VCall : Type where
  | toggleConfig : VCall
  | notifyResize : VCall
  | focus : VCall
  | restyleElement : VCall
  | restore_plugin_config (cfg : J) : VCall
  | load (table : Nat) : VCall
  | table_update (data : J) : VCall
  | table_clear : VCall
  | table_replace (data : J) : VCall
  | delete : VCall
  | getEditPort : VCall
  | save : VCall
  | restore (cfg : J) : VCall

/-- Observable state of a `PerspectiveWidget` together with its viewer
element.  `isAttached` / `isVisible` are the Lumino framework flags the
widget reads. -/
structure PW where
  attrs : Attrs
  nodeClasses : List String
  calls : List VCall
  _plugin_config : Option J
  _client : Bool
  _server : Bool
  _dark : Bool
  _editable : Bool
  isAttached : Bool
  isVisible : Bool
  id : String
  titleLabel : String

namespace PW

/-- Accessor `set plugin(plugin)`: `this.viewer.setAttribute("plugin", plugin)`. -/
def set_plugin (w : PW) (plugin : List Char) : PW :=
  { w with attrs := setAttr w.attrs "plugin" plugin }

/-- Accessor `get plugin()`: `this.viewer.getAttribute("plugin")`. -/
def get_plugin (w : PW) : Option (List Char) := getAttr w.attrs "plugin"

/-- The characters of the JavaScript string `"null"`, the result of coercing
the `null` of a missing attribute to a string inside `JSON.parse`. -/
def nullChars : List Char := ['n', 'u', 'l', 'l']

/-- Accessor `set columns(columns)`: stringify when non-empty, otherwise remove the
attribute. -/
def set_columns (w : PW) (columns : JList) : PW :=
  if columns.length > 0 then
    { w with attrs := setAttr w.attrs "columns" (stringifyVal (J.arr columns)) }
  else
    { w with attrs := removeAttr w.attrs "columns" }

/-- Accessor `get columns()`: `JSON.parse(this.viewer.getAttribute("columns"))`. -/
def get_columns (w : PW) : Option J :=
  jparse ((getAttr w.attrs "columns").getD nullChars)

/-- Accessor `set row_pivots(row_pivots)`: always stringified onto the attribute. -/
def set_row_pivots (w : PW) (row_pivots : JList) : PW :=
  { w with attrs := setAttr w.attrs "row-pivots" (stringifyVal (J.arr row_pivots)) }

/-- Accessor `get row_pivots()`. -/
def get_row_pivots (w : PW) : Option J :=
  jparse ((getAttr w.attrs "row-pivots").getD nullChars)

/-- Accessor `set column_pivots(column_pivots)`. -/
def set_column_pivots (w : PW) (column_pivots : JList) : PW :=
  let v := stringifyVal (J.arr column_pivots)
  { w with attrs := setAttr w.attrs "column-pivots" v }

/-- Accessor `get column_pivots()`. -/
def get_column_pivots (w : PW) : Option J :=
  jparse ((getAttr w.attrs "column-pivots").getD nullChars)

/-- Accessor `set aggregates(aggregates)`: the aggregates map, always stringified. -/
def set_aggregates (w : PW) (aggregates : JMembers) : PW :=
  { w with attrs := setAttr w.attrs "aggregates" (stringifyVal (J.obj aggregates)) }

/-- Accessor `get aggregates()`. -/
def get_aggregates (w : PW) : Option J :=
  jparse ((getAttr w.attrs "aggregates").getD nullChars)

/-- Accessor `set sort(sort)`: always stringified onto the attribute. -/
def set_sort (w : PW) (sort : JList) : PW :=
  { w with attrs := setAttr w.attrs "sort" (stringifyVal (J.arr sort)) }

/-- Accessor `get sort()`. -/
def get_sort (w : PW) : Option J :=
  jparse ((getAttr w.attrs "sort").getD nullChars)

/-- Accessor `set expressions(expressions)`: stringify when non-empty, otherwise remove
the attribute. -/
def set_expressions (w : PW) (expressions : JList) : PW :=
  if expressions.length > 0 then
    let v := stringifyVal (J.arr expressions)
    { w with attrs := setAttr w.attrs "expressions" v }
  else
    { w with attrs := removeAttr w.attrs "expressions" }

/-- Accessor `get expressions()`. -/
def get_expressions (w : PW) : Option J :=
  jparse ((getAttr w.attrs "expressions").getD nullChars)

/-- Accessor `set filters(filters)`: stringify when non-empty, otherwise remove the
attribute. -/
def set_filters (w : PW) (filters : JList) : PW :=
  if filters.length > 0 then
    { w with attrs := setAttr w.attrs "filters" (stringifyVal (J.arr filters)) }
  else
    { w with attrs := removeAttr w.attrs "filters" }

/-- Accessor `get filters()`. -/
def get_filters (w : PW) : Option J :=
  jparse ((getAttr w.attrs "filters").getD nullChars)

/-- Accessor `set plugin_config(plugin_config)`: cache the value, and when it is truthy
forward it to the viewer via `restore({plugin_config})`. -/
def set_plugin_config (w : PW) (plugin_config : J) : PW :=
  let w1 := { w with _plugin_config := some plugin_config }
  if truthy plugin_config then
    { w1 with calls := w1.calls ++ [VCall.restore_plugin_config plugin_config] }
  else w1

/-- Accessor `get plugin_config()`: the cached field. -/
def get_plugin_config (w : PW) : Option J := w._plugin_config

/-- Accessor `set client(client)`: a pure field cache. -/
def set_client (w : PW) (client : Bool) : PW := { w with _client := client }

/-- Accessor `get client()`. -/
def get_client (w : PW) : Bool := w._client

/-- Accessor `set server(server)`: a pure field cache. -/
def set_server (w : PW) (server : Bool) : PW := { w with _server := server }

/-- Accessor `get server()`. -/
def get_server (w : PW) : Bool := w._server

/-- Accessor `set dark(dark)`: cache the flag, swap the container classes on the node,
and restyle the viewer when attached. -/
def set_dark (w : PW) (dark : Bool) : PW :=
  let w1 := { w with _dark := dark }
  let cls :=
    if dark then
      classRemove (classAdd w1.nodeClasses PSP_CONTAINER_CLASS_DARK)
        PSP_CONTAINER_CLASS
    else
      classRemove (classAdd w1.nodeClasses PSP_CONTAINER_CLASS)
        PSP_CONTAINER_CLASS_DARK
  let w2 := { w1 with nodeClasses := cls }
  if w2.isAttached then { w2 with calls := w2.calls ++ [VCall.restyleElement] }
  else w2

/-- Accessor `get dark()`. -/
def get_dark (w : PW) : Bool := w._dark

/-- Accessor `set editable(editable)`: cache the flag and mirror it as an empty-valued
boolean attribute. -/
def set_editable (w : PW) (editable : Bool) : PW :=
  let w1 := { w with _editable := editable }
  if editable then { w1 with attrs := setAttr w1.attrs "editable" [] }
  else { w1 with attrs := removeAttr w1.attrs "editable" }

/-- Accessor `get editable()`. -/
def get_editable (w : PW) : Bool := w._editable

/-- Accessor `set selectable(row_selection)`: an empty-valued boolean attribute. -/
def set_selectable (w : PW) (row_selection : Bool) : PW :=
  if row_selection then { w with attrs := setAttr w.attrs "selectable" [] }
  else { w with attrs := removeAttr w.attrs "selectable" }

/-- Accessor `get selectable()`: `this.viewer.hasAttribute("selectable")`. -/
def get_selectable (w : PW) : Bool := hasAttr w.attrs "selectable"

end PW

/-- The options object accepted by the constructor
(`PerspectiveViewerOptions & PerspectiveWidgetOptions`); `none` models an
omitted (`undefined`) field.  The `_dash` fields are the quoted-key variants
`options["row-pivots"]` / `options["column-pivots"]`. -/
structure Options where
  plugin : Option (List Char) := none
  columns : Option JList := none
  row_pivots : Option JList := none
  row_pivots_dash : Option JList := none
  column_pivots : Option JList := none
  column_pivots_dash : Option JList := none
  aggregates : Option JMembers := none
  sort : Option JList := none
  filters : Option JList := none
  expressions : Option JList := none
  plugin_config : Option J := none
  dark : Option Bool := none
  editable : Option Bool := none
  server : Option Bool := none
  client : Option Bool := none
  selectable : Option Bool := none

/-- JavaScript `o || d` for an optional string: an absent or empty (falsy)
string falls through to the default. -/
def orStr (o : Option (List Char)) (d : List Char) : List Char :=
  match o with
  | some s => if s.isEmpty then d else s
  | none => d

/-- JavaScript `o || d` for an optional object value: a provided falsy value
(such as `null`) falls through to the default; objects and arrays are always
truthy. -/
def orJ (o : Option J) (d : J) : J :=
  match o with
  | some v => if truthy v then v else d
  | none => d

namespace PW

/-- Method `_set_attributes(options)`: compute the defaulted configuration with
JavaScript `||` semantics and assign it through the property setters in
source order. -/
def _set_attributes (w : PW) (options : Options) : PW :=
  let plugin := orStr options.plugin "datagrid".toList
  let columns := options.columns.getD .nil
  let row_pivots := (options.row_pivots <|> options.row_pivots_dash).getD .nil
  let column_pivots :=
    (options.column_pivots <|> options.column_pivots_dash).getD .nil
  let aggregates := options.aggregates.getD .nil
  let sort := options.sort.getD .nil
  let filters := options.filters.getD .nil
  let expressions := options.expressions.getD .nil
  let plugin_config := orJ options.plugin_config (J.obj .nil)
  let dark := options.dark.getD false
  let editable := options.editable.getD false
  let server := options.server.getD false
  let client := options.client.getD false
  let selectable := options.selectable.getD false
  let w := set_server w server
  let w := set_client w client
  let w := set_dark w dark
  let w := set_editable w editable
  let w := set_plugin w plugin
  let w := set_plugin_config w plugin_config
  let w := set_row_pivots w row_pivots
  let w := set_column_pivots w column_pivots
  let w := set_sort w sort
  let w := set_columns w columns
  let w := set_selectable w selectable
  let w := set_aggregates w aggregates
  let w := set_expressions w expressions
  let w := set_filters w filters
  w

end PW

/-- The decimal string of the module counter, as JavaScript number-to-string
conversion produces in `` `${name}-` + _increment ``. -/
def natDecStr (n : Nat) : String := ⟨natDec n⟩

/-- The widget id assigned by the constructor. -/
def widgetId (name : String) (increment : Nat) : String :=
  name ++ "-" ++ natDecStr increment

/-- The `PerspectiveWidget` constructor: `createNode` initialises the node
classes, the viewer's `type` attribute and issues the initial
`toggleConfig()`; then title and id are assigned from the module counter
`_increment`, the counter is incremented, and `_set_attributes(options)`
runs.  Returns the widget together with the new counter value.  The Lumino
attachment and visibility flags are environment inputs. -/
def construct (name : String) (options : Options) (increment : Nat)
    (attached visible : Bool) : PW × Nat :=
  let w : PW := {
    attrs := [("type", MIME_TYPE.toList)]
    nodeClasses := ["p-Widget", PSP_CONTAINER_CLASS]
    calls := [VCall.toggleConfig]
    _plugin_config := none
    _client := false
    _server := false
    _dark := false
    _editable := false
    isAttached := attached
    isVisible := visible
    id := widgetId name increment
    titleLabel := name }
  (PW._set_attributes w options, increment + 1)

namespace PW

/-- Method `notifyResize()`: forwards to `viewer.notifyResize()` when the widget is
visible. -/
def notifyResize (w : PW) : PW :=
  if w.isVisible then { w with calls := w.calls ++ [VCall.notifyResize] } else w

/-- Method `onAfterShow(msg)`: `this.notifyResize()`, then the Lumino
`super.onAfterShow` (identity on this state). -/
def onAfterShow (w : PW) : PW := notifyResize w

/-- Method `onResize(msg)`: `this.notifyResize()`, then `super.onResize`. -/
def onResize (w : PW) : PW := notifyResize w

/-- Method `onActivateRequest(msg)`: focus the viewer only while attached, then
`super.onActivateRequest`. -/
def onActivateRequest (w : PW) : PW :=
  if w.isAttached then { w with calls := w.calls ++ [VCall.focus] } else w

/-- Method `toggleConfig()`: forwarded when visible. -/
def toggleConfig (w : PW) : PW :=
  if w.isVisible then { w with calls := w.calls ++ [VCall.toggleConfig] } else w

/-- Method `load(table)`: `await this.viewer.load(table)`. -/
def load (w : PW) (table : Nat) : PW :=
  { w with calls := w.calls ++ [VCall.load table] }

/-- Method `_update(data)`: `this.viewer.table.update(data)`. -/
def _update (w : PW) (data : J) : PW :=
  { w with calls := w.calls ++ [VCall.table_update data] }

/-- Method `clear()`: `await this.viewer.table.clear()`. -/
def clear (w : PW) : PW := { w with calls := w.calls ++ [VCall.table_clear] }

/-- Method `replace(data)`: `await this.viewer.table.replace(data)`. -/
def replace (w : PW) (data : J) : PW :=
  { w with calls := w.calls ++ [VCall.table_replace data] }

/-- Method `delete()`: `this.viewer.delete()`. -/
def delete (w : PW) : PW := { w with calls := w.calls ++ [VCall.delete] }

end PW

/-- A session of widget constructions threading the module-level `_increment`
counter, as successive `new PerspectiveWidget(...)` calls do. -/
def runSession : List (String × Options) → Nat → List PW
  | [], _ => []
  | (name, o) :: specs, inc =>
    let p := construct name o inc false false
    p.1 :: runSession specs p.2


/-! ## Attribute and class-list lemmas -/

theorem getAttr_setAttr_same (a : Attrs) (k : String) (v : List Char) :
    getAttr (setAttr a k v) k = some v := by
  simp [getAttr, setAttr]

theorem getAttr_removeAttr_same (a : Attrs) (k : String) :
    getAttr (removeAttr a k) k = none := by
  induction a with
  | nil => simp [removeAttr, getAttr]
  | cons q l ih =>
    simp only [removeAttr]
    by_cases hq : q.1 = k
    · simp [hq, ih]
    · simp [getAttr, hq, ih]

theorem getAttr_removeAttr_ne (a : Attrs) (k k' : String) (h : k ≠ k') :
    getAttr (removeAttr a k) k' = getAttr a k' := by
  induction a with
  | nil => simp [removeAttr]
  | cons q l ih =>
    simp only [removeAttr]
    by_cases hq : q.1 = k
    · have : ¬q.1 = k' := by rw [hq]; exact h
      simp [getAttr, hq, this, ih, h]
    · simp only [if_neg hq, getAttr]
      by_cases hq' : q.1 = k'
      · simp [hq']
      · simp [hq', ih]

theorem getAttr_setAttr_ne (a : Attrs) (k k' : String) (v : List Char)
    (h : k ≠ k') : getAttr (setAttr a k v) k' = getAttr a k' := by
  simp only [setAttr, getAttr, if_neg h]
  exact getAttr_removeAttr_ne a k k' h

theorem classHas_classAdd_self (l : List String) (c : String) :
    classHas (classAdd l c) c = true := by
  simp only [classAdd, classHas]
  split
  · next h => simpa using h
  · simp

theorem classHas_classAdd_ne (l : List String) (c c' : String) (h : c ≠ c') :
    classHas (classAdd l c') c = classHas l c := by
  simp only [classAdd, classHas]
  split
  · rfl
  · simp [h]

theorem classHas_classRemove_self (l : List String) (c : String) :
    classHas (classRemove l c) c = false := by
  induction l with
  | nil => simp [classRemove, classHas]
  | cons x l ih =>
    simp only [classRemove]
    by_cases hx : x = c
    · simp [hx, ih]
    · simp only [if_neg hx, classHas] at ih ⊢
      simp [hx, Ne.symm hx, ih]

theorem classHas_classRemove_ne (l : List String) (c c' : String) (h : c ≠ c') :
    classHas (classRemove l c') c = classHas l c := by
  induction l with
  | nil => simp [classRemove]
  | cons x l ih =>
    simp only [classRemove]
    by_cases hx : x = c'
    · have : ¬x = c := by rw [hx]; exact fun he => h he.symm
      simp only [classHas] at ih ⊢
      simp [hx, this, ih, h]
    · simp only [if_neg hx, classHas] at ih ⊢
      by_cases hxc : x = c
      · simp [hxc]
      · simp [hxc, ih]


/-! ## Claim theorems -/

/-- A base widget state used for concrete counterexamples and witnesses. -/
def emptyPW : PW :=
  { attrs := []
    nodeClasses := []
    calls := []
    _plugin_config := none
    _client := false
    _server := false
    _dark := false
    _editable := false
    isAttached := false
    isVisible := false
    id := ""
    titleLabel := "" }

/-- C4: `onResize` and `onAfterShow` invoke the viewer's `notifyResize`
exactly when the widget is visible; while not visible these handlers make no
viewer call at all (and neither handler changes anything else). -/
theorem c4_resize_visibility_forwarding (w : PW) :
    (PW.onResize w).calls =
        w.calls ++ (if w.isVisible then [VCall.notifyResize] else []) ∧
      (PW.onAfterShow w).calls =
        w.calls ++ (if w.isVisible then [VCall.notifyResize] else []) ∧
      (PW.onResize w) = PW.notifyResize w ∧ (PW.onAfterShow w) = PW.notifyResize w := by
  refine ⟨?hr, ?hs, rfl, rfl⟩ <;>
    (simp only [PW.onResize, PW.onAfterShow, PW.notifyResize]
     split <;> simp)

/-- C5: `onActivateRequest` calls the viewer's `focus` exactly when the widget
is attached; a detached widget's handler never calls `focus`. -/
theorem c5_activation_focus_iff_attached (w : PW) :
    (PW.onActivateRequest w).calls =
      w.calls ++ (if w.isAttached then [VCall.focus] else []) := by
  simp only [PW.onActivateRequest]
  split <;> simp

/-- C6: the data operations forward their argument unchanged as a single call
on the viewer (or its table) and leave every other component of the state —
attributes, node classes, cached fields — untouched. -/
theorem c6_data_ops_pure_forwarding (w : PW) (t : Nat) (d d' : J) :
    PW.load w t = { w with calls := w.calls ++ [VCall.load t] } ∧
      PW._update w d = { w with calls := w.calls ++ [VCall.table_update d] } ∧
      PW.clear w = { w with calls := w.calls ++ [VCall.table_clear] } ∧
      PW.replace w d' = { w with calls := w.calls ++ [VCall.table_replace d'] } ∧
      PW.delete w = { w with calls := w.calls ++ [VCall.delete] } :=
  ⟨rfl, rfl, rfl, rfl, rfl⟩

/-- C7: `client`, `server` and `plugin_config` cache what was assigned: each
getter reads back exactly the assigned value, and the `client` / `server`
setters change nothing but their field. -/
theorem c7_simple_field_caches (w : PW) (b c : Bool) (v : J) :
    PW.get_client (PW.set_client w b) = b ∧
      PW.set_client w b = { w with _client := b } ∧
      PW.get_server (PW.set_server w c) = c ∧
      PW.set_server w c = { w with _server := c } ∧
      PW.get_plugin_config (PW.set_plugin_config w v) = some v := by
  refine ⟨rfl, rfl, rfl, rfl, ?hpc⟩
  simp only [PW.set_plugin_config, PW.get_plugin_config]
  split <;> rfl

/-- C9: after any assignment to `dark` the node carries exactly one of the two
container classes: the dark one when the flag is true, the plain one when it
is false. -/
theorem c9_dark_classes_exclusive (w : PW) (b : Bool) :
    classHas (PW.set_dark w b).nodeClasses PSP_CONTAINER_CLASS_DARK = b ∧
      classHas (PW.set_dark w b).nodeClasses PSP_CONTAINER_CLASS = !b := by
  have hne : PSP_CONTAINER_CLASS ≠ PSP_CONTAINER_CLASS_DARK := by decide
  cases b <;>
    (simp only [PW.set_dark]
     constructor <;>
       (split <;>
        simp [classHas_classAdd_self, classHas_classRemove_self,
          classHas_classRemove_ne _ _ _ hne, classHas_classRemove_ne _ _ _ hne.symm,
          classHas_classAdd_ne]))

/-- A missing attribute parses as JavaScript `null`. -/
theorem jparse_nullChars : jparse PW.nullChars = some J.null := rfl

/-- C10: assigning the empty array to `columns` (resp. `filters`,
`expressions`) removes the attribute, and the getter then parses the absent
attribute's `null` into JavaScript `null` — not into the empty array that was
assigned. -/
theorem c10_empty_assignment_reads_null (w : PW) :
    PW.get_columns (PW.set_columns w .nil) = some J.null ∧
      PW.get_filters (PW.set_filters w .nil) = some J.null ∧
      PW.get_expressions (PW.set_expressions w .nil) = some J.null ∧
      (J.null ≠ J.arr .nil) := by
  refine ⟨?ha, ?hb, ?hc, by decide⟩ <;>
    simp [PW.set_columns, PW.set_filters, PW.set_expressions, JList.length,
      PW.get_columns, PW.get_filters, PW.get_expressions,
      getAttr_removeAttr_same, jparse_nullChars]

/-- C2 counterexample: assigning the empty array to `row_pivots` does not
remove the attribute — the element still carries `row-pivots`, holding the
JSON text `[]`. -/
theorem c2_counterexample :
    hasAttr (PW.set_row_pivots emptyPW .nil).attrs "row-pivots" = true ∧
      getAttr (PW.set_row_pivots emptyPW .nil).attrs "row-pivots" =
        some ['[', ']'] := by decide

/-- C2 amended: assigning an empty collection removes the attribute for
`columns`, `expressions` and `filters` only; the `row_pivots`,
`column_pivots`, `sort` and `aggregates` setters always set their attribute,
so an empty assignment leaves the attribute present, holding the JSON text of
the empty collection. -/
theorem c2_empty_collection_attributes (w : PW) :
    getAttr (PW.set_columns w .nil).attrs "columns" = none ∧
      getAttr (PW.set_expressions w .nil).attrs "expressions" = none ∧
      getAttr (PW.set_filters w .nil).attrs "filters" = none ∧
      getAttr (PW.set_row_pivots w .nil).attrs "row-pivots" =
        some (stringifyVal (J.arr .nil)) ∧
      getAttr (PW.set_column_pivots w .nil).attrs "column-pivots" =
        some (stringifyVal (J.arr .nil)) ∧
      getAttr (PW.set_sort w .nil).attrs "sort" =
        some (stringifyVal (J.arr .nil)) ∧
      getAttr (PW.set_aggregates w .nil).attrs "aggregates" =
        some (stringifyVal (J.obj .nil)) := by
  repeat' apply And.intro
  all_goals
    simp [PW.set_columns, PW.set_expressions, PW.set_filters, PW.set_row_pivots,
      PW.set_column_pivots, PW.set_sort, PW.set_aggregates, JList.length,
      getAttr_removeAttr_same, getAttr_setAttr_same]


theorem JList.length_pos_of_ne_nil (v : JList) (h : v ≠ .nil) : v.length > 0 := by
  cases v with
  | nil => exact absurd rfl h
  | cons x tl => simp [JList.length]

/-- C3: every collection setter stores `JSON.stringify` of its argument as the
attribute value (whenever the attribute is set at all), and for a non-empty
value reading the property straight back returns a structurally equal value:
the JSON round trip is the identity. -/
theorem c3_json_marshaling (w : PW) (v : JList) (m : JMembers) (hv : v ≠ .nil) :
    (getAttr (PW.set_columns w v).attrs "columns" =
        some (stringifyVal (J.arr v)) ∧
      PW.get_columns (PW.set_columns w v) = some (J.arr v)) ∧
    (getAttr (PW.set_row_pivots w v).attrs "row-pivots" =
        some (stringifyVal (J.arr v)) ∧
      PW.get_row_pivots (PW.set_row_pivots w v) = some (J.arr v)) ∧
    (getAttr (PW.set_column_pivots w v).attrs "column-pivots" =
        some (stringifyVal (J.arr v)) ∧
      PW.get_column_pivots (PW.set_column_pivots w v) = some (J.arr v)) ∧
    (getAttr (PW.set_sort w v).attrs "sort" = some (stringifyVal (J.arr v)) ∧
      PW.get_sort (PW.set_sort w v) = some (J.arr v)) ∧
    (getAttr (PW.set_expressions w v).attrs "expressions" =
        some (stringifyVal (J.arr v)) ∧
      PW.get_expressions (PW.set_expressions w v) = some (J.arr v)) ∧
    (getAttr (PW.set_filters w v).attrs "filters" =
        some (stringifyVal (J.arr v)) ∧
      PW.get_filters (PW.set_filters w v) = some (J.arr v)) ∧
    (getAttr (PW.set_aggregates w m).attrs "aggregates" =
        some (stringifyVal (J.obj m)) ∧
      PW.get_aggregates (PW.set_aggregates w m) = some (J.obj m)) := by
  have hlen := JList.length_pos_of_ne_nil v hv
  repeat' apply And.intro
  all_goals
    simp [PW.set_columns, PW.set_row_pivots, PW.set_column_pivots, PW.set_sort,
      PW.set_expressions, PW.set_filters, PW.set_aggregates, hlen,
      PW.get_columns, PW.get_row_pivots, PW.get_column_pivots, PW.get_sort,
      PW.get_expressions, PW.get_filters, PW.get_aggregates,
      getAttr_setAttr_same, jparse_stringify]

/-- C3 witness: the round trip at a concrete one-element column list. -/
theorem c3_json_marshaling_witness :
    PW.get_columns (PW.set_columns emptyPW (JList.cons (J.str ['a']) JList.nil)) =
      some (J.arr (JList.cons (J.str ['a']) JList.nil)) :=
  ((c3_json_marshaling emptyPW (JList.cons (J.str ['a']) JList.nil)
    (JMembers.cons ['k'] (J.str ['s']) JMembers.nil) (by decide)).1).2


/-- The options object with every omitted field replaced by the default that
`_set_attributes` computes for it with JavaScript `||` semantics. -/
def explicitize (o : Options) : Options :=
  { plugin := some (orStr o.plugin "datagrid".toList)
    columns := some (o.columns.getD .nil)
    row_pivots := some ((o.row_pivots <|> o.row_pivots_dash).getD .nil)
    row_pivots_dash := none
    column_pivots := some ((o.column_pivots <|> o.column_pivots_dash).getD .nil)
    column_pivots_dash := none
    aggregates := some (o.aggregates.getD .nil)
    sort := some (o.sort.getD .nil)
    filters := some (o.filters.getD .nil)
    expressions := some (o.expressions.getD .nil)
    plugin_config := some (orJ o.plugin_config (J.obj .nil))
    dark := some (o.dark.getD false)
    editable := some (o.editable.getD false)
    server := some (o.server.getD false)
    client := some (o.client.getD false)
    selectable := some (o.selectable.getD false) }

theorem orStr_idem (p : Option (List Char)) (d : List Char)
    (hd : d.isEmpty = false) : orStr (some (orStr p d)) d = orStr p d := by
  cases p with
  | none => simp [orStr, hd]
  | some s => by_cases hs : s.isEmpty <;> simp [orStr, hs, hd]

theorem orJ_idem (p : Option J) (d : J) (hd : truthy d = true) :
    orJ (some (orJ p d)) d = orJ p d := by
  cases p with
  | none => simp [orJ, hd]
  | some v => by_cases hv : truthy v <;> simp [orJ, hv, hd]

/-- Attribute frame lemmas: what each setter leaves untouched. -/
theorem attrs_set_server (w : PW) (b : Bool) (k : String) :
    getAttr (PW.set_server w b).attrs k = getAttr w.attrs k := rfl

theorem attrs_set_client (w : PW) (b : Bool) (k : String) :
    getAttr (PW.set_client w b).attrs k = getAttr w.attrs k := rfl

theorem attrs_set_dark (w : PW) (b : Bool) (k : String) :
    getAttr (PW.set_dark w b).attrs k = getAttr w.attrs k := by
  simp only [PW.set_dark]
  split <;> rfl

theorem attrs_set_plugin_config (w : PW) (v : J) (k : String) :
    getAttr (PW.set_plugin_config w v).attrs k = getAttr w.attrs k := by
  simp only [PW.set_plugin_config]
  split <;> rfl

theorem attrs_set_editable (w : PW) (b : Bool) (k : String) (h : k ≠ "editable") :
    getAttr (PW.set_editable w b).attrs k = getAttr w.attrs k := by
  simp only [PW.set_editable]
  split
  · exact getAttr_setAttr_ne _ _ _ _ h.symm
  · exact getAttr_removeAttr_ne _ _ _ h.symm

theorem attrs_set_plugin (w : PW) (v : List Char) (k : String) (h : k ≠ "plugin") :
    getAttr (PW.set_plugin w v).attrs k = getAttr w.attrs k :=
  getAttr_setAttr_ne _ _ _ _ h.symm

theorem attrs_set_row_pivots (w : PW) (v : JList) (k : String)
    (h : k ≠ "row-pivots") :
    getAttr (PW.set_row_pivots w v).attrs k = getAttr w.attrs k :=
  getAttr_setAttr_ne _ _ _ _ h.symm

theorem attrs_set_column_pivots (w : PW) (v : JList) (k : String)
    (h : k ≠ "column-pivots") :
    getAttr (PW.set_column_pivots w v).attrs k = getAttr w.attrs k :=
  getAttr_setAttr_ne _ _ _ _ h.symm

theorem attrs_set_sort (w : PW) (v : JList) (k : String) (h : k ≠ "sort") :
    getAttr (PW.set_sort w v).attrs k = getAttr w.attrs k :=
  getAttr_setAttr_ne _ _ _ _ h.symm

theorem attrs_set_columns (w : PW) (v : JList) (k : String) (h : k ≠ "columns") :
    getAttr (PW.set_columns w v).attrs k = getAttr w.attrs k := by
  simp only [PW.set_columns]
  split
  · exact getAttr_setAttr_ne _ _ _ _ h.symm
  · exact getAttr_removeAttr_ne _ _ _ h.symm

theorem attrs_set_selectable (w : PW) (b : Bool) (k : String)
    (h : k ≠ "selectable") :
    getAttr (PW.set_selectable w b).attrs k = getAttr w.attrs k := by
  simp only [PW.set_selectable]
  split
  · exact getAttr_setAttr_ne _ _ _ _ h.symm
  · exact getAttr_removeAttr_ne _ _ _ h.symm

theorem attrs_set_aggregates (w : PW) (m : JMembers) (k : String)
    (h : k ≠ "aggregates") :
    getAttr (PW.set_aggregates w m).attrs k = getAttr w.attrs k :=
  getAttr_setAttr_ne _ _ _ _ h.symm

theorem attrs_set_expressions (w : PW) (v : JList) (k : String)
    (h : k ≠ "expressions") :
    getAttr (PW.set_expressions w v).attrs k = getAttr w.attrs k := by
  simp only [PW.set_expressions]
  split
  · exact getAttr_setAttr_ne _ _ _ _ h.symm
  · exact getAttr_removeAttr_ne _ _ _ h.symm

theorem attrs_set_filters (w : PW) (v : JList) (k : String) (h : k ≠ "filters") :
    getAttr (PW.set_filters w v).attrs k = getAttr w.attrs k := by
  simp only [PW.set_filters]
  split
  · exact getAttr_setAttr_ne _ _ _ _ h.symm
  · exact getAttr_removeAttr_ne _ _ _ h.symm

/-- The `plugin` attribute after `_set_attributes`: the later setter
assignments never touch the `plugin` key. -/
theorem get_plugin_set_attributes (w : PW) (o : Options) :
    PW.get_plugin (PW._set_attributes w o) =
      some (orStr o.plugin "datagrid".toList) := by
  show getAttr (PW._set_attributes w o).attrs "plugin" = _
  simp only [PW._set_attributes]
  rw [attrs_set_filters _ _ _ (by decide), attrs_set_expressions _ _ _ (by decide),
    attrs_set_aggregates _ _ _ (by decide), attrs_set_selectable _ _ _ (by decide),
    attrs_set_columns _ _ _ (by decide), attrs_set_sort _ _ _ (by decide),
    attrs_set_column_pivots _ _ _ (by decide),
    attrs_set_row_pivots _ _ _ (by decide), attrs_set_plugin_config]
  exact getAttr_setAttr_same _ _ _

/-- C1 counterexample: the claim reads "the plugin attribute is set to
`options.plugin` when provided"; but providing the empty string — a falsy
JavaScript value — makes `options.plugin || "datagrid"` fall through to the
default, so the attribute reads "datagrid", not the provided value. -/
theorem c1_counterexample :
    PW.get_plugin (construct "Perspective" { plugin := some [] } 0 false false).1 =
        some "datagrid".toList ∧
      "datagrid".toList ≠ ([] : List Char) := by decide

/-- C1 amended: for every options object, the plugin attribute becomes
`options.plugin` when provided and truthy (non-empty) and "datagrid"
otherwise; omitted collection fields behave exactly as explicitly empty ones
and omitted booleans exactly as explicit `false` — `_set_attributes` agrees
with itself on the default-completed options object — and the constructor's
default empty options produce the "datagrid" plugin attribute. -/
theorem c1_defaults_applied (w : PW) (o : Options) (name : String) (inc : Nat)
    (att vis : Bool) :
    PW.get_plugin (PW._set_attributes w o) =
        some (orStr o.plugin "datagrid".toList) ∧
      PW._set_attributes w o = PW._set_attributes w (explicitize o) ∧
      PW.get_plugin (construct name {} inc att vis).1 =
        some "datagrid".toList := by
  refine ⟨get_plugin_set_attributes w o, ?heq, ?hcons⟩
  · simp only [PW._set_attributes, explicitize]
    rw [orStr_idem _ _ (by decide), orJ_idem _ _ (by decide)]
    simp
  · show PW.get_plugin (PW._set_attributes _ {}) = _
    rw [get_plugin_set_attributes]
    rfl


/-- Frame lemmas: no setter changes the widget id. -/
theorem id_set_server (w : PW) (b : Bool) : (PW.set_server w b).id = w.id := rfl

theorem id_set_client (w : PW) (b : Bool) : (PW.set_client w b).id = w.id := rfl

theorem id_set_dark (w : PW) (b : Bool) : (PW.set_dark w b).id = w.id := by
  simp only [PW.set_dark]
  split <;> rfl

theorem id_set_editable (w : PW) (b : Bool) : (PW.set_editable w b).id = w.id := by
  simp only [PW.set_editable]
  split <;> rfl

theorem id_set_plugin (w : PW) (v : List Char) : (PW.set_plugin w v).id = w.id := rfl

theorem id_set_plugin_config (w : PW) (v : J) :
    (PW.set_plugin_config w v).id = w.id := by
  simp only [PW.set_plugin_config]
  split <;> rfl

theorem id_set_row_pivots (w : PW) (v : JList) :
    (PW.set_row_pivots w v).id = w.id := rfl

theorem id_set_column_pivots (w : PW) (v : JList) :
    (PW.set_column_pivots w v).id = w.id := rfl

theorem id_set_sort (w : PW) (v : JList) : (PW.set_sort w v).id = w.id := rfl

theorem id_set_columns (w : PW) (v : JList) : (PW.set_columns w v).id = w.id := by
  simp only [PW.set_columns]
  split <;> rfl

theorem id_set_selectable (w : PW) (b : Bool) :
    (PW.set_selectable w b).id = w.id := by
  simp only [PW.set_selectable]
  split <;> rfl

theorem id_set_aggregates (w : PW) (m : JMembers) :
    (PW.set_aggregates w m).id = w.id := rfl

theorem id_set_expressions (w : PW) (v : JList) :
    (PW.set_expressions w v).id = w.id := by
  simp only [PW.set_expressions]
  split <;> rfl

theorem id_set_filters (w : PW) (v : JList) : (PW.set_filters w v).id = w.id := by
  simp only [PW.set_filters]
  split <;> rfl

theorem set_attributes_id (w : PW) (o : Options) :
    (PW._set_attributes w o).id = w.id := by
  simp only [PW._set_attributes]
  rw [id_set_filters, id_set_expressions, id_set_aggregates, id_set_selectable,
    id_set_columns, id_set_sort, id_set_column_pivots, id_set_row_pivots,
    id_set_plugin_config, id_set_plugin, id_set_editable, id_set_dark,
    id_set_client, id_set_server]

/-- The id assigned by the constructor. -/
theorem construct_id (name : String) (o : Options) (inc : Nat) (att vis : Bool) :
    (construct name o inc att vis).1.id = widgetId name inc := by
  show (PW._set_attributes _ o).id = _
  rw [set_attributes_id]

/-- The suffix after a separator that cannot occur in the prefixes is
uniquely determined. -/
theorem append_dash_cancel : ∀ (xs ys u v : List Char),
    '-' ∉ xs → '-' ∉ ys → xs ++ '-' :: u = ys ++ '-' :: v → xs = ys ∧ u = v := by
  intro xs
  induction xs with
  | nil =>
    intro ys u v _ hys h
    cases ys with
    | nil => simpa using h
    | cons y ys' =>
      simp only [List.nil_append, List.cons_append, List.cons.injEq] at h
      exact absurd (h.1 ▸ List.mem_cons_self y ys') hys
  | cons x xs' ih =>
    intro ys u v hxs hys h
    cases ys with
    | nil =>
      simp only [List.cons_append, List.nil_append, List.cons.injEq] at h
      exact absurd (h.1 ▸ List.mem_cons_self x xs') hxs
    | cons y ys' =>
      simp only [List.cons_append, List.cons.injEq] at h
      obtain ⟨hxy, htl⟩ := h
      have hxs' : '-' ∉ xs' := fun hm => hxs (List.mem_cons_of_mem _ hm)
      have hys' : '-' ∉ ys' := fun hm => hys (List.mem_cons_of_mem _ hm)
      obtain ⟨h1, h2⟩ := ih ys' u v hxs' hys' htl
      exact ⟨by rw [hxy, h1], h2⟩

/-- Two widget ids built from different counter values differ, whatever the
names: the digits after the final dash recover the counter. -/
theorem widgetId_inj_counter (n1 n2 : String) (c1 c2 : Nat)
    (h : widgetId n1 c1 = widgetId n2 c2) : c1 = c2 := by
  have hd : (widgetId n1 c1).data = (widgetId n2 c2).data := by rw [h]
  have e1 : (widgetId n1 c1).data = n1.data ++ '-' :: natDec c1 := by
    simp [widgetId, natDecStr, String.data_append]
  have e2 : (widgetId n2 c2).data = n2.data ++ '-' :: natDec c2 := by
    simp [widgetId, natDecStr, String.data_append]
  rw [e1, e2] at hd
  have hr := congrArg List.reverse hd
  simp only [List.reverse_append, List.reverse_cons, List.append_assoc,
    List.singleton_append] at hr
  have hnd1 : '-' ∉ (natDec c1).reverse := by
    simp only [List.mem_reverse]
    intro hm
    exact natDec_no_dash c1 '-' hm rfl
  have hnd2 : '-' ∉ (natDec c2).reverse := by
    simp only [List.mem_reverse]
    intro hm
    exact natDec_no_dash c2 '-' hm rfl
  obtain ⟨hrev, -⟩ := append_dash_cancel _ _ _ _ hnd1 hnd2 hr
  have : natDec c1 = natDec c2 := by
    have h2 := congrArg List.reverse hrev
    simpa using h2
  exact natDec_injective this

/-- Every widget in a session tail has an id built from a counter at least the
starting counter. -/
theorem mem_runSession_id : ∀ (specs : List (String × Options)) (c0 : Nat)
    (w : PW), w ∈ runSession specs c0 → ∃ nm k, w.id = widgetId nm k ∧ c0 ≤ k := by
  intro specs
  induction specs with
  | nil =>
    intro c0 w hw
    simp [runSession] at hw
  | cons s specs ih =>
    intro c0 w hw
    obtain ⟨nm0, o0⟩ := s
    simp only [runSession] at hw
    rcases List.mem_cons.mp hw with rfl | hmem
    · exact ⟨nm0, c0, construct_id nm0 o0 c0 false false, le_refl c0⟩
    · obtain ⟨nm, k, hid, hk⟩ := ih (c0 + 1) w hmem
      exact ⟨nm, k, hid, by omega⟩

/-- C8: the constructor derives the id from the name and the module counter
and increments the counter, so the widgets of any one session have pairwise
distinct ids, even when constructed with equal names. -/
theorem c8_session_ids_unique (specs : List (String × Options)) (c0 : Nat)
    (name : String) (o : Options) (inc : Nat) (att vis : Bool) :
    (construct name o inc att vis).1.id = widgetId name inc ∧
      (construct name o inc att vis).2 = inc + 1 ∧
      (runSession specs c0).Pairwise (fun w1 w2 => w1.id ≠ w2.id) := by
  refine ⟨construct_id name o inc att vis, rfl, ?hpw⟩
  induction specs generalizing c0 with
  | nil => exact List.Pairwise.nil
  | cons s specs ih =>
    obtain ⟨nm0, o0⟩ := s
    simp only [runSession]
    refine List.Pairwise.cons ?_ (ih (c0 + 1))
    intro w hw
    obtain ⟨nm, k, hid, hk⟩ := mem_runSession_id specs (c0 + 1) w hw
    rw [construct_id, hid]
    intro he
    have := widgetId_inj_counter _ _ _ _ he
    omega

end PspWidget
